import Mathlib

/-!
Shallow embedding of the `http_benchmark` load generator
(`src/http_benchmark.py`, `src/fire_bench.py`).

Conventions of the embedding:
* Python ints are `ℤ`/`ℕ`; Python floats appearing in the metric pipeline
  (latencies, error rate) are `ℚ`; the pacing distributions live over `ℝ`.
* A Python expression that can raise an exception is `Option`-valued, `none`
  meaning the exception escapes (here: `ZeroDivisionError` on line 144).
* One completed attempt of a Worker corresponds to one `TransportOutcome`:
  the transport either returned a full response (with an elapsed wall-clock
  time in seconds and an HTTP status) or raised an exception.
-/

namespace HTTPBench

/-- The outcome of one transport-level request attempt, as seen inside the
`try` block of `LoadGenerator._send_request` (lines 107-112): either the
request/`response.read()` completed after `elapsed` seconds with some HTTP
`status`, or an exception was raised. -/
inductive TransportOutcome where
  | ok (elapsed : ℚ) (status : ℕ)
  | exn
deriving DecidableEq

/-- `LoadGenerator._send_request` (lines 106-112): on completion it returns
`(time.monotonic() - start_time) * 1000` (latency in ms); on any exception it
returns `-1.0`.  The HTTP status of the response is never inspected. -/
def sendRequest (o : TransportOutcome) : ℚ :=
  match o with
  | .ok elapsed _ => elapsed * 1000
  | .exn => -1

/-- The classification made by `LoadGenerator._worker` (lines 120-123):
a returned latency `>= 0` is appended to `results`, otherwise `1` is appended
to `errors`.  So an attempt is an error sample exactly when `sendRequest`
returned a negative value. -/
def isErrorSample (o : TransportOutcome) : Bool :=
  decide (sendRequest o < 0)

/-- One iteration of `LoadGenerator._worker`'s loop (lines 119-123): the
completed attempt appends its latency to the shared `results` list when
`latency >= 0` and appends `1` to the shared `errors` list otherwise. -/
def workerStep (acc : List ℚ × List ℕ) (o : TransportOutcome) : List ℚ × List ℕ :=
  let latency := sendRequest o
  if 0 ≤ latency then (acc.1 ++ [latency], acc.2) else (acc.1, acc.2 ++ [1])

/-- The body of `LoadGenerator._worker` (lines 118-123), folded over the
attempts one Worker completes. -/
def workerLoop (outs : List TransportOutcome) : List ℚ × List ℕ :=
  outs.foldl workerStep ([], [])

/-- The attempts one Worker completes before its deadline.  The worker loop
(line 118) checks `time.time() < end_time` before every attempt, with
`end_time = start_time + duration` (line 133); when `duration ≤ 0` the very
first check already fails, so the Worker records no attempt at all.  For a
positive duration the attempts actually completed within the deadline are the
abstract input `planned`. -/
def workerAttempts (duration : ℤ) (planned : List TransportOutcome) : List TransportOutcome :=
  if duration ≤ 0 then [] else planned

/-- The shared collectors after all Workers of one run have stopped
(lines 134-140): every Worker appends into the same `results` and `errors`
lists.  asyncio interleaves the appends of the single-threaded event loop in
some order; we take worker-order concatenation as the representative
interleaving — the counts used by the aggregation are independent of it. -/
def collectStep (acc : List ℚ × List ℕ) (outs : List TransportOutcome) :
    List ℚ × List ℕ :=
  let w := workerLoop outs
  (acc.1 ++ w.1, acc.2 ++ w.2)

/-- See `collectStep`. -/
def runCollect (ws : List (List TransportOutcome)) : List ℚ × List ℕ :=
  ws.foldl collectStep ([], [])

/-- Line 144: `error_rate = error_count / (successful_requests + error_count)`.
Python raises `ZeroDivisionError` when the denominator is `0`; the embedding
returns `none` in that case. -/
def errorRate (succ errs : ℕ) : Option ℚ :=
  if succ + errs = 0 then none
  else some ((errs : ℚ) / ((succ : ℚ) + (errs : ℚ)))

/-- Round-half-even to an integer, the rounding used by Python's fixed-point
`format` (`f"{x:.2f}"` rounds the value at two decimals half-to-even). -/
def roundHalfEven (q : ℚ) : ℤ :=
  let f := ⌊q⌋
  let r := q - (f : ℚ)
  if r < 1 / 2 then f
  else if 1 / 2 < r then f + 1
  else if f % 2 = 0 then f else f + 1

/-- Two-digit zero padding for the fractional part. -/
def pad2 (n : ℕ) : String :=
  if n < 10 then "0" ++ toString n else toString n

/-- Python's `f"{q:.2f}"`: the value formatted as a decimal string with
exactly two digits after the point (lines 152 and 159).  In this program it
is only applied to non-negative values (an error rate or a latency). -/
def formatF2 (q : ℚ) : String :=
  let n := roundHalfEven (q * 100)
  if n < 0 then "-" ++ toString ((-n) / 100) ++ "." ++ pad2 (((-n) % 100).toNat)
  else toString (n / 100) ++ "." ++ pad2 ((n % 100).toNat)

/-- Element `i` of a sorted sample list, with the index clamped to the last
element (for the interpolation formula the clamped index is only ever touched
with weight zero) and `0` as the (unreachable) empty-list default. -/
def nthSorted (a : List ℚ) (i : ℕ) : ℚ :=
  a.getD (min i (a.length - 1)) 0

/-- `np.percentile(a, p)` on an already sorted non-empty `a`, with the default
linear interpolation between closest ranks: the fractional rank is
`p/100 * (len(a) - 1)` and the result interpolates between the neighbouring
order statistics. -/
def percentileOfSorted (a : List ℚ) (p : ℚ) : ℚ :=
  let rank : ℚ := p * ((a.length : ℚ) - 1) / 100
  let i : ℕ := (⌊rank⌋).toNat
  nthSorted a i + (rank - (i : ℚ)) * (nthSorted a (i + 1) - nthSorted a i)

/-- `np.percentile(latencies, p)` (line 159): sort the samples ascending, then
interpolate linearly between closest ranks. -/
def npPercentile (xs : List ℚ) (p : ℚ) : ℚ :=
  percentileOfSorted (List.insertionSort (· ≤ ·) xs) p

/-- The metrics dictionary built by `LoadGenerator.run` (lines 147-159).
The percentile entries exist only when there is latency data (line 157);
the error rate and the percentiles are stored as two-decimal strings. -/
structure Metrics where
  concurrencyLevel : ℕ
  durationS : ℤ
  successfulRequests : ℕ
  totalErrors : ℕ
  errorRateStr : String
  percentiles : Option (String × String × String × String)
deriving DecidableEq

/-- Default used only to state order-preservation without dependent indexing. -/
def defaultMetrics : Metrics :=
  { concurrencyLevel := 0, durationS := 0, successfulRequests := 0, totalErrors := 0,
    errorRateStr := "", percentiles := none }

/-- The Workers spawned by `LoadGenerator.run` (line 139,
`for _ in range(self.concurrency)`): `concurrency` Workers, each given the
same deadline; `planned i` is the list of attempts Worker `i` would complete
within a positive deadline. -/
def runWorkers (concurrency : ℕ) (duration : ℤ)
    (planned : ℕ → List TransportOutcome) : List (List TransportOutcome) :=
  (List.range concurrency).map fun i => workerAttempts duration (planned i)

/-- The shared `results` list after all Workers stopped (lines 134-140). -/
def runResults (concurrency : ℕ) (duration : ℤ)
    (planned : ℕ → List TransportOutcome) : List ℚ :=
  (runCollect (runWorkers concurrency duration planned)).1

/-- The shared `errors` list after all Workers stopped (lines 135-140). -/
def runErrors (concurrency : ℕ) (duration : ℤ)
    (planned : ℕ → List TransportOutcome) : List ℕ :=
  (runCollect (runWorkers concurrency duration planned)).2

/-- The percentile entries added on lines 156-159, one two-decimal string per
`p ∈ {50, 75, 95, 99}`. -/
def percentileRow (results : List ℚ) : String × String × String × String :=
  (formatF2 (npPercentile results 50), formatF2 (npPercentile results 75),
   formatF2 (npPercentile results 95), formatF2 (npPercentile results 99))

/-- `LoadGenerator.run` (lines 125-161): spawn the Workers, gather their
samples, then aggregate (lines 142-159).  `none` models the
`ZeroDivisionError` escaping from line 144 when not a single attempt was
completed. -/
def loadRun (concurrency : ℕ) (duration : ℤ)
    (planned : ℕ → List TransportOutcome) : Option Metrics :=
  match errorRate (runResults concurrency duration planned).length
      (runErrors concurrency duration planned).length with
  | none => none
  | some er =>
    some
      { concurrencyLevel := concurrency
        durationS := duration
        successfulRequests := (runResults concurrency duration planned).length
        totalErrors := (runErrors concurrency duration planned).length
        errorRateStr := formatF2 er
        percentiles :=
          if 0 < (runResults concurrency duration planned).length then
            some (percentileRow (runResults concurrency duration planned))
          else none }

/-- ASCII upper-casing of one character, as Python's `str.upper` acts on the
ASCII method names used here. -/
def upperChar (c : Char) : Char :=
  if 97 ≤ c.toNat ∧ c.toNat ≤ 122 then Char.ofNat (c.toNat - 32) else c

/-- Python's `request_type.upper()` (lines 35 and 48) on the ASCII method
names of this program. -/
def pyUpper (s : String) : String :=
  String.mk (s.data.map upperChar)

/-- The configuration stored by `HTTPBenchmark.__init__` (lines 16-44). -/
structure BenchmarkConfig where
  url : String
  duration : ℤ
  concurrencyLevels : List ℕ
  requestType : String
  data : Option String
  mode : String
  avgJitterMs : ℤ
deriving DecidableEq

/-- `HTTPBenchmark.__init__` (lines 16-44): it stores every argument verbatim
(upper-casing `request_type`, line 35) and performs no validation of the
duration or of the concurrency levels — it cannot fail. -/
def httpBenchmarkInit (url : String) (duration : ℤ) (levels : List ℕ)
    (requestType : String) (data : Option String) (mode : String)
    (avgJitterMs : ℤ) : BenchmarkConfig :=
  { url := url, duration := duration, concurrencyLevels := levels,
    requestType := pyUpper requestType, data := data, mode := mode,
    avgJitterMs := avgJitterMs }

/-- The loop of `HTTPBenchmark.run.run_tests` (lines 54-60): one
`LoadGenerator.run` per concurrency level, awaited to completion before the
next level starts, results appended in order.  `oracle i` gives the planned
Worker attempts of the `i`-th run; an exception in any run (`none`) aborts
the whole loop. -/
def runTestsAux (duration : ℤ) (oracle : ℕ → ℕ → List TransportOutcome) :
    List ℕ → ℕ → Option (List Metrics)
  | [], _ => some []
  | c :: rest, i =>
    match loadRun c duration (oracle i) with
    | none => none
    | some m =>
      match runTestsAux duration oracle rest (i + 1) with
      | none => none
      | some ms => some (m :: ms)

/-- `HTTPBenchmark.run` (lines 46-66) restricted to its core: sequentially run
the configured concurrency levels and collect the rows of the report. -/
def runTests (cfg : BenchmarkConfig) (oracle : ℕ → ℕ → List TransportOutcome) :
    Option (List Metrics) :=
  runTestsAux cfg.duration oracle cfg.concurrencyLevels 0

/-- The request handed to the transport. -/
structure HttpRequest where
  method : String
  url : String
  data : Option String
deriving DecidableEq

/-- Line 108: `self.session.request(self.request_type, self.url,
data=self.data)` — the configured body is passed to the transport for every
request, regardless of the HTTP method. -/
def buildRequest (requestType url : String) (data : Option String) : HttpRequest :=
  { method := requestType, url := url, data := data }

/-- `fire_bench._main` (lines 47-54): `data` starts as the empty string and is
only replaced by the `--data` argument when the request type is not GET. -/
def cliData (requestType : String) (dataArg : Option String) : String :=
  if pyUpper requestType ≠ "GET" then
    match dataArg with
    | some d => d
    | none => ""
  else ""

/-- Line 91: `self.avg_jitter = float(avg_jitter / 1000)` — the `avg_jitter`
CLI / constructor argument is in milliseconds and is converted to seconds. -/
noncomputable def avgJitterSeconds (avgJitterMs : ℤ) : ℝ :=
  (avgJitterMs : ℝ) / 1000

/-- A description of the probability distribution the pacing delay is drawn
from: a fixed value, `numpy.random.uniform(lo, hi)`, or
`numpy.random.exponential(scale)`. -/
inductive DelayDist where
  | point (c : ℝ)
  | uniformDist (lo hi : ℝ)
  | expDist (scale : ℝ)

/-- Lines 101-104 of `_send_request`: in mode `"uniform"` the Worker sleeps
`numpy.random.uniform(0, 2 * self.avg_jitter)` seconds, in mode
`"exponential"` it sleeps `numpy.random.exponential(self.avg_jitter)`
seconds, and in any other mode (in particular `"burst"`) it does not sleep at
all. -/
def pacerDist (mode : String) (avgJitter : ℝ) : DelayDist :=
  if mode = "uniform" then DelayDist.uniformDist 0 (2 * avgJitter)
  else if mode = "exponential" then DelayDist.expDist avgJitter
  else DelayDist.point 0

/-- The set of values a draw from the distribution can take, per numpy's
documented semantics: `uniform(lo, hi)` draws from `[lo, hi)` (contained in
`[lo, hi]`), `exponential(scale)` draws a non-negative value. -/
def DelayDist.support : DelayDist → Set ℝ
  | .point c => {c}
  | .uniformDist lo hi => Set.Icc lo hi
  | .expDist _ => Set.Ici 0

/-- The mean `∫ x · pdf x` of the distribution, using the documented
densities: constant `1 / (hi - lo)` on `[lo, hi]` for `uniform(lo, hi)`, and
`scale⁻¹ · exp (-x / scale)` on `(0, ∞)` for `exponential(scale)`. -/
noncomputable def DelayDist.mean : DelayDist → ℝ
  | .point c => c
  | .uniformDist lo hi => ∫ x in lo..hi, x * (hi - lo)⁻¹
  | .expDist s => ∫ x in Set.Ioi 0, x * (s⁻¹ * Real.exp (-(x / s)))

/-! ### Sample-conservation lemmas (Worker and collector) -/

lemma foldl_workerStep_lengths (outs : List TransportOutcome) :
    ∀ acc : List ℚ × List ℕ,
      (outs.foldl workerStep acc).1.length + (outs.foldl workerStep acc).2.length
        = acc.1.length + acc.2.length + outs.length := by
  induction outs with
  | nil => intro acc; simp
  | cons o rest ih =>
    intro acc
    rw [List.foldl_cons, ih]
    unfold workerStep
    by_cases h : (0 : ℚ) ≤ sendRequest o <;> simp [h] <;> omega

lemma workerLoop_lengths (outs : List TransportOutcome) :
    (workerLoop outs).1.length + (workerLoop outs).2.length = outs.length := by
  simpa [workerLoop] using foldl_workerStep_lengths outs ([], [])

lemma foldl_collectStep_lengths (ws : List (List TransportOutcome)) :
    ∀ acc : List ℚ × List ℕ,
      (ws.foldl collectStep acc).1.length + (ws.foldl collectStep acc).2.length
        = acc.1.length + acc.2.length + (ws.map List.length).sum := by
  induction ws with
  | nil => intro acc; simp
  | cons w rest ih =>
    intro acc
    rw [List.foldl_cons, ih]
    unfold collectStep
    have := workerLoop_lengths w
    simp only [List.map_cons, List.sum_cons, List.length_append]
    omega

lemma runCollect_lengths (ws : List (List TransportOutcome)) :
    (runCollect ws).1.length + (runCollect ws).2.length = (ws.map List.length).sum := by
  simpa [runCollect] using foldl_collectStep_lengths ws ([], [])

/-! ### Aggregation lemmas (`LoadGenerator.run`) -/

lemma errorRate_some {s e : ℕ} {er : ℚ} (h : errorRate s e = some er) :
    0 < s + e ∧ er = (e : ℚ) / ((s : ℚ) + (e : ℚ)) := by
  unfold errorRate at h
  split at h
  · exact absurd h (by simp)
  · rename_i hne
    exact ⟨Nat.pos_of_ne_zero hne, (Option.some.inj h).symm⟩

lemma errorRate_all_errors {e : ℕ} (he : 0 < e) : errorRate 0 e = some 1 := by
  unfold errorRate
  rw [if_neg (by omega)]
  congr 1
  rw [Nat.cast_zero, zero_add]
  exact div_self (by exact_mod_cast he.ne')

lemma loadRun_fields {c : ℕ} {d : ℤ} {planned : ℕ → List TransportOutcome} {m : Metrics}
    (h : loadRun c d planned = some m) :
    ∃ er,
      errorRate (runResults c d planned).length (runErrors c d planned).length = some er ∧
      m = { concurrencyLevel := c, durationS := d,
            successfulRequests := (runResults c d planned).length,
            totalErrors := (runErrors c d planned).length,
            errorRateStr := formatF2 er,
            percentiles :=
              if 0 < (runResults c d planned).length then
                some (percentileRow (runResults c d planned))
              else none } := by
  unfold loadRun at h
  cases h' : errorRate (runResults c d planned).length (runErrors c d planned).length with
  | none => rw [h'] at h; cases h
  | some er => rw [h'] at h; exact ⟨er, rfl, (Option.some.inj h).symm⟩

/-- **C5.** For every Concurrency Run, after all Workers stop, the counts
reduced on lines 142-143 conserve the samples: `len(results) + len(errors)`
equals the number of completed attempts observed during the run — every Worker
loop iteration contributes exactly one sample, either a latency or an error
marker, none lost or duplicated — the sum is zero exactly when no Worker
completed a single attempt, and whenever the run returns a metrics row,
`successfulRequests + totalErrors` equals that same attempt count. -/
theorem samples_conserved (c : ℕ) (d : ℤ) (planned : ℕ → List TransportOutcome) :
    (runResults c d planned).length + (runErrors c d planned).length
      = ((runWorkers c d planned).map List.length).sum ∧
    ((runResults c d planned).length + (runErrors c d planned).length = 0 ↔
      ∀ outs ∈ runWorkers c d planned, outs = []) ∧
    ∀ m, loadRun c d planned = some m →
      m.successfulRequests + m.totalErrors
        = ((runWorkers c d planned).map List.length).sum := by
  have hbase : (runResults c d planned).length + (runErrors c d planned).length
      = ((runWorkers c d planned).map List.length).sum := by
    unfold runResults runErrors
    exact runCollect_lengths (runWorkers c d planned)
  refine ⟨hbase, ?_, ?_⟩
  · rw [hbase, List.sum_eq_zero_iff]
    constructor
    · intro h outs houts
      exact List.length_eq_zero.mp (h outs.length (List.mem_map_of_mem List.length houts))
    · intro h n hn
      obtain ⟨outs, houts, rfl⟩ := List.mem_map.mp hn
      rw [h outs houts]
      rfl
  · intro m hm
    obtain ⟨er, her, rfl⟩ := loadRun_fields hm
    exact hbase

/-- Witness for `samples_conserved`: one Worker, one failing attempt. -/
theorem samples_conserved_witness :
    (runResults 1 1 (fun _ => [TransportOutcome.exn])).length
        + (runErrors 1 1 (fun _ => [TransportOutcome.exn])).length
      = ((runWorkers 1 1 (fun _ => [TransportOutcome.exn])).map List.length).sum ∧
    ((runResults 1 1 (fun _ => [TransportOutcome.exn])).length
        + (runErrors 1 1 (fun _ => [TransportOutcome.exn])).length = 0 ↔
      ∀ outs ∈ runWorkers 1 1 (fun _ => [TransportOutcome.exn]), outs = []) ∧
    ∀ m, loadRun 1 1 (fun _ => [TransportOutcome.exn]) = some m →
      m.successfulRequests + m.totalErrors
        = ((runWorkers 1 1 (fun _ => [TransportOutcome.exn])).map List.length).sum :=
  samples_conserved 1 1 (fun _ => [TransportOutcome.exn])

/-- **C7.** An attempt is recorded as an error sample exactly when the
transport raised an exception: a completed response (whatever its status,
e.g. a 4xx/5xx) yields a non-negative latency `elapsed * 1000` and is counted
successful, and the classification never looks at the HTTP status. -/
theorem error_sample_iff_exception (e : ℚ) (s s' : ℕ) (he : 0 ≤ e) :
    isErrorSample (.ok e s) = false ∧
    isErrorSample .exn = true ∧
    sendRequest (.ok e s) = e * 1000 ∧
    sendRequest (.ok e s) = sendRequest (.ok e s') := by
  refine ⟨?_, rfl, rfl, rfl⟩
  simp only [isErrorSample, sendRequest, decide_eq_false_iff_not, not_lt]
  exact mul_nonneg he (by norm_num)

/-- Witness for `error_sample_iff_exception` at `elapsed = 1`s,
statuses `500` and `200`. -/
theorem error_sample_iff_exception_witness :
    (0 : ℚ) ≤ 1 ∧
    (isErrorSample (.ok 1 500) = false ∧
     isErrorSample .exn = true ∧
     sendRequest (.ok 1 500) = 1 * 1000 ∧
     sendRequest (.ok 1 500) = sendRequest (.ok 1 200)) :=
  ⟨by norm_num, error_sample_iff_exception 1 500 200 (by norm_num)⟩

/-- **C1** (the code violates it).  A Concurrency Run with zero total attempts
does raise a division error: line 144 divides by
`successful_requests + error_count` unguarded, so `errorRate` is `none`
(`ZeroDivisionError`) rather than `0` or `"n/a"`, and the whole of
`LoadGenerator.run` propagates the exception. -/
theorem zero_attempts_division_error :
    errorRate 0 0 = none ∧ loadRun 1 1 (fun _ => []) = none := by
  refine ⟨rfl, ?_⟩
  decide

/-- **C2** (the code violates it).  Invalid configuration values are not
detected: `HTTPBenchmark.__init__` stores a non-positive duration or a
non-positive concurrency level verbatim, and the failure only shows up later,
inside the first Concurrency Run, as the line-144 `ZeroDivisionError`
(`runTests = none`) — after the Workers for that run were already spawned. -/
theorem invalid_config_not_validated :
    (httpBenchmarkInit "http://example.com" 0 [5] "GET" none "burst" 10).duration = 0 ∧
    (httpBenchmarkInit "http://example.com" 3 [0] "GET" none "burst" 10).concurrencyLevels
      = [0] ∧
    runTests (httpBenchmarkInit "http://example.com" 0 [5] "GET" none "burst" 10)
      (fun _ _ => [.ok 1 200]) = none ∧
    runTests (httpBenchmarkInit "http://example.com" 3 [0] "GET" none "burst" 10)
      (fun _ _ => [.ok 1 200]) = none := by
  refine ⟨rfl, rfl, ?_, ?_⟩ <;> decide

/-- **C3** (the code violates it).  Line 108 passes `data=self.data` to the
transport for every request, so a GET run configured with a body does issue
GET requests carrying that body verbatim — the docstring's "Ignored for GET
requests" does not happen in `LoadGenerator`; only the separate CLI wrapper
`fire_bench._main` blanks the body for GET. -/
theorem get_request_carries_body :
    (buildRequest "GET" "http://example.com" (some "payload")).data = some "payload" ∧
    (buildRequest "GET" "http://example.com" (some "payload")).method = "GET" ∧
    cliData "GET" (some "payload") = "" := by
  refine ⟨rfl, rfl, ?_⟩
  decide

/-! ### Evaluation lemmas for concrete inputs

`Rat`'s arithmetic operations are `@[irreducible]`, so concrete runs of the
aggregation pipeline are evaluated by `simp`/`norm_num` rather than `decide`. -/

lemma roundHalfEven_intCast (n : ℤ) : roundHalfEven ((n : ℚ)) = n := by
  unfold roundHalfEven
  rw [Int.floor_intCast]
  norm_num

lemma formatF2_one : formatF2 1 = "1.00" := by
  unfold formatF2
  rw [show ((1 : ℚ) * 100) = ((100 : ℤ) : ℚ) by norm_num, roundHalfEven_intCast]
  decide

lemma formatF2_half : formatF2 (2⁻¹) = "0.50" := by
  unfold formatF2
  rw [show ((2⁻¹ : ℚ) * 100) = ((50 : ℤ) : ℚ) by norm_num, roundHalfEven_intCast]
  decide

lemma formatF2_thousand : formatF2 1000 = "1000.00" := by
  unfold formatF2
  rw [show ((1000 : ℚ) * 100) = ((100000 : ℤ) : ℚ) by norm_num, roundHalfEven_intCast]
  decide

lemma npPercentile_singleton (x p : ℚ) : npPercentile [x] p = x := by
  unfold npPercentile percentileOfSorted nthSorted
  norm_num [List.insertionSort, List.orderedInsert]

lemma workerLoop_exn : workerLoop [TransportOutcome.exn] = ([], [1]) := by
  norm_num [workerLoop, workerStep, sendRequest]

lemma workerLoop_ok_exn :
    workerLoop [TransportOutcome.ok 1 200, TransportOutcome.exn] = ([1000], [1]) := by
  norm_num [workerLoop, workerStep, sendRequest]

lemma loadRun_exn1 :
    loadRun 1 1 (fun _ => [TransportOutcome.exn]) = some ⟨1, 1, 0, 1, "1.00", none⟩ := by
  have hw : runWorkers 1 1 (fun _ => [TransportOutcome.exn]) = [[TransportOutcome.exn]] := by
    simp [runWorkers, workerAttempts, List.range_succ]
  have hres : runResults 1 1 (fun _ => [TransportOutcome.exn]) = [] := by
    simp [runResults, hw, runCollect, collectStep, workerLoop_exn]
  have herr : runErrors 1 1 (fun _ => [TransportOutcome.exn]) = [1] := by
    simp [runErrors, hw, runCollect, collectStep, workerLoop_exn]
  unfold loadRun
  rw [hres, herr]
  simp only [List.length_nil, List.length_cons, Nat.zero_add]
  rw [errorRate_all_errors (by norm_num)]
  simp [formatF2_one, hres, herr]

lemma loadRun_exn2 :
    loadRun 2 1 (fun _ => [TransportOutcome.exn]) = some ⟨2, 1, 0, 2, "1.00", none⟩ := by
  have hw : runWorkers 2 1 (fun _ => [TransportOutcome.exn])
      = [[TransportOutcome.exn], [TransportOutcome.exn]] := by
    simp [runWorkers, workerAttempts, List.range_succ]
  have hres : runResults 2 1 (fun _ => [TransportOutcome.exn]) = [] := by
    simp [runResults, hw, runCollect, collectStep, workerLoop_exn]
  have herr : runErrors 2 1 (fun _ => [TransportOutcome.exn]) = [1, 1] := by
    simp [runErrors, hw, runCollect, collectStep, workerLoop_exn]
  unfold loadRun
  rw [hres, herr]
  simp only [List.length_nil, List.length_cons, Nat.zero_add]
  rw [errorRate_all_errors (by norm_num)]
  simp [formatF2_one, hres, herr]

lemma loadRun_mixed :
    loadRun 1 1 (fun _ => [TransportOutcome.ok 1 200, TransportOutcome.exn])
      = some ⟨1, 1, 1, 1, "0.50",
          some ("1000.00", "1000.00", "1000.00", "1000.00")⟩ := by
  have hw : runWorkers 1 1 (fun _ => [TransportOutcome.ok 1 200, TransportOutcome.exn])
      = [[TransportOutcome.ok 1 200, TransportOutcome.exn]] := by
    simp [runWorkers, workerAttempts, List.range_succ]
  have hres : runResults 1 1 (fun _ => [TransportOutcome.ok 1 200, TransportOutcome.exn])
      = [1000] := by
    simp [runResults, hw, runCollect, collectStep, workerLoop_ok_exn]
  have herr : runErrors 1 1 (fun _ => [TransportOutcome.ok 1 200, TransportOutcome.exn])
      = [1] := by
    simp [runErrors, hw, runCollect, collectStep, workerLoop_ok_exn]
  have her : errorRate 1 1 = some (1 / 2) := by
    unfold errorRate
    norm_num
  unfold loadRun
  rw [hres, herr]
  simp only [List.length_cons, List.length_nil, Nat.zero_add]
  rw [her]
  simp [hres, percentileRow, npPercentile_singleton, formatF2_half, formatF2_thousand]

lemma runTests_two_levels_eval :
    runTests (httpBenchmarkInit "http://x" 1 [1, 2] "GET" none "burst" 10)
        (fun _ _ => [TransportOutcome.exn])
      = some [⟨1, 1, 0, 1, "1.00", none⟩, ⟨2, 1, 0, 2, "1.00", none⟩] := by
  unfold runTests httpBenchmarkInit
  simp only [runTestsAux, loadRun_exn1, loadRun_exn2]

lemma runTestsAux_spec (d : ℤ) (oracle : ℕ → ℕ → List TransportOutcome)
    (levels : List ℕ) :
    ∀ (i : ℕ) (report : List Metrics),
      runTestsAux d oracle levels i = some report →
      report.length = levels.length ∧
      ∀ k, (report.getD k defaultMetrics).concurrencyLevel = levels.getD k 0 := by
  induction levels with
  | nil =>
    intro i report h
    obtain rfl := Option.some.inj h
    exact ⟨rfl, fun k => by simp [defaultMetrics]⟩
  | cons c rest ih =>
    intro i report h
    unfold runTestsAux at h
    cases h1 : loadRun c d (oracle i) with
    | none => rw [h1] at h; cases h
    | some m =>
      rw [h1] at h
      cases h2 : runTestsAux d oracle rest (i + 1) with
      | none => rw [h2] at h; cases h
      | some ms =>
        rw [h2] at h
        obtain rfl := Option.some.inj h
        obtain ⟨hlen, hk⟩ := ih (i + 1) ms h2
        obtain ⟨er, her, rfl⟩ := loadRun_fields h1
        refine ⟨by simp [hlen], ?_⟩
        intro k
        cases k with
        | zero => simp
        | succ k => simpa using hk k

/-- **C6.** The Orchestrator runs one Concurrency Run per configured level,
strictly sequentially (the next `LoadGenerator.run` is awaited only after the
previous one finished), and the report has exactly one row per requested
level, with `report[i].concurrencyLevel = levels[i]` for every `i`. -/
theorem report_preserves_level_order (url requestType mode : String)
    (data : Option String) (avgJitterMs duration : ℤ) (levels : List ℕ)
    (oracle : ℕ → ℕ → List TransportOutcome) (report : List Metrics)
    (h : runTests (httpBenchmarkInit url duration levels requestType data mode avgJitterMs)
        oracle = some report) :
    report.length = levels.length ∧
    ∀ k, (report.getD k defaultMetrics).concurrencyLevel = levels.getD k 0 :=
  runTestsAux_spec duration oracle levels 0 report h

/-- Witness for `report_preserves_level_order`: levels `[1, 2]`, every attempt
failing. -/
theorem report_preserves_level_order_witness :
    runTests (httpBenchmarkInit "http://x" 1 [1, 2] "GET" none "burst" 10)
        (fun _ _ => [.exn])
      = some [⟨1, 1, 0, 1, "1.00", none⟩, ⟨2, 1, 0, 2, "1.00", none⟩] ∧
    (([⟨1, 1, 0, 1, "1.00", none⟩, ⟨2, 1, 0, 2, "1.00", none⟩] : List Metrics).length
        = ([1, 2] : List ℕ).length ∧
     ∀ k, ((([⟨1, 1, 0, 1, "1.00", none⟩, ⟨2, 1, 0, 2, "1.00", none⟩] : List Metrics).getD k
          defaultMetrics)).concurrencyLevel = ([1, 2] : List ℕ).getD k 0) :=
  ⟨runTests_two_levels_eval,
   report_preserves_level_order "http://x" "GET" "burst" none 10 1 [1, 2] _ _
     runTests_two_levels_eval⟩

/-- **C8.** The percentile entries are present exactly when
`successfulRequests > 0`; an all-error run still returns a metrics row with
`successfulRequests = 0`, `totalErrors > 0`, error rate `1` (formatted
`"1.00"`), and no percentile entries. -/
theorem percentiles_present_iff_success (c : ℕ) (d : ℤ)
    (planned : ℕ → List TransportOutcome) (m : Metrics)
    (h : loadRun c d planned = some m) :
    (m.percentiles.isSome ↔ 0 < m.successfulRequests) ∧
    (m.successfulRequests = 0 →
      0 < m.totalErrors ∧
      errorRate m.successfulRequests m.totalErrors = some 1 ∧
      m.errorRateStr = "1.00" ∧
      m.percentiles = none) := by
  obtain ⟨er, her, rfl⟩ := loadRun_fields h
  obtain ⟨hpos, hval⟩ := errorRate_some her
  dsimp only
  constructor
  · by_cases h0 : 0 < (runResults c d planned).length <;> simp [h0]
  · intro h0
    have he : 0 < (runErrors c d planned).length := by omega
    have hone : er = 1 := by
      rw [hval, h0]
      rw [Nat.cast_zero, zero_add]
      exact div_self (by exact_mod_cast he.ne')
    refine ⟨he, ?_, ?_, ?_⟩
    · rw [h0]; exact errorRate_all_errors he
    · rw [hone]; exact formatF2_one
    · simp [h0]

/-- Witness for `percentiles_present_iff_success`: one Worker, one failing
attempt. -/
theorem percentiles_present_iff_success_witness :
    loadRun 1 1 (fun _ => [.exn]) = some ⟨1, 1, 0, 1, "1.00", none⟩ ∧
    (((⟨1, 1, 0, 1, "1.00", none⟩ : Metrics).percentiles.isSome ↔
        0 < (⟨1, 1, 0, 1, "1.00", none⟩ : Metrics).successfulRequests) ∧
     ((⟨1, 1, 0, 1, "1.00", none⟩ : Metrics).successfulRequests = 0 →
        0 < (⟨1, 1, 0, 1, "1.00", none⟩ : Metrics).totalErrors ∧
        errorRate (⟨1, 1, 0, 1, "1.00", none⟩ : Metrics).successfulRequests
            (⟨1, 1, 0, 1, "1.00", none⟩ : Metrics).totalErrors = some 1 ∧
        (⟨1, 1, 0, 1, "1.00", none⟩ : Metrics).errorRateStr = "1.00" ∧
        (⟨1, 1, 0, 1, "1.00", none⟩ : Metrics).percentiles = none)) :=
  ⟨loadRun_exn1, percentiles_present_iff_success 1 1 _ _ loadRun_exn1⟩

/-- **C10.** The `"Error Rate (%)"` entry holds the error *fraction*
`totalErrors / (successfulRequests + totalErrors)`, a value in `[0, 1]`,
formatted as a two-decimal string — it is never multiplied by 100 despite the
percent label — and the percentile entries are likewise two-decimal strings
produced by `formatF2` rather than numbers. -/
theorem error_rate_formatted_fraction (c : ℕ) (d : ℤ)
    (planned : ℕ → List TransportOutcome) (m : Metrics)
    (h : loadRun c d planned = some m) :
    m.errorRateStr
        = formatF2 ((m.totalErrors : ℚ)
            / ((m.successfulRequests : ℚ) + (m.totalErrors : ℚ))) ∧
    (0 : ℚ) ≤ (m.totalErrors : ℚ) / ((m.successfulRequests : ℚ) + (m.totalErrors : ℚ)) ∧
    (m.totalErrors : ℚ) / ((m.successfulRequests : ℚ) + (m.totalErrors : ℚ)) ≤ 1 ∧
    ∀ s50 s75 s95 s99, m.percentiles = some (s50, s75, s95, s99) →
      s50 = formatF2 (npPercentile (runResults c d planned) 50) ∧
      s75 = formatF2 (npPercentile (runResults c d planned) 75) ∧
      s95 = formatF2 (npPercentile (runResults c d planned) 95) ∧
      s99 = formatF2 (npPercentile (runResults c d planned) 99) := by
  obtain ⟨er, her, rfl⟩ := loadRun_fields h
  obtain ⟨hpos, hval⟩ := errorRate_some her
  dsimp only
  have hden : (0 : ℚ) < ((runResults c d planned).length : ℚ)
      + ((runErrors c d planned).length : ℚ) := by exact_mod_cast hpos
  refine ⟨by rw [hval], div_nonneg (by positivity) hden.le, ?_, ?_⟩
  · rw [div_le_one hden]
    exact_mod_cast Nat.le_add_left (runErrors c d planned).length
      (runResults c d planned).length
  · intro s50 s75 s95 s99 hp
    by_cases h0 : 0 < (runResults c d planned).length
    · rw [if_pos h0] at hp
      have h' := Option.some.inj hp
      simp only [percentileRow, Prod.mk.injEq] at h'
      exact ⟨h'.1.symm, h'.2.1.symm, h'.2.2.1.symm, h'.2.2.2.symm⟩
    · rw [if_neg h0] at hp
      cases hp

/-! ### Percentile monotonicity -/

lemma nthSorted_mono {a : List ℚ} (ha : a.Sorted (· ≤ ·)) (h0 : a ≠ [])
    {i j : ℕ} (hij : i ≤ j) : nthSorted a i ≤ nthSorted a j := by
  have hlen : 0 < a.length := List.length_pos.mpr h0
  have hi : min i (a.length - 1) < a.length := by omega
  have hj : min j (a.length - 1) < a.length := by omega
  have hle : min i (a.length - 1) ≤ min j (a.length - 1) := by omega
  unfold nthSorted
  rw [List.getD_eq_getElem _ _ hi, List.getD_eq_getElem _ _ hj]
  have := ha.rel_get_of_le (a := ⟨min i (a.length - 1), hi⟩)
    (b := ⟨min j (a.length - 1), hj⟩) hle
  simpa using this

lemma floor_toNat_cast (r : ℚ) (hr : 0 ≤ r) : ((⌊r⌋.toNat : ℕ) : ℚ) = ((⌊r⌋ : ℤ) : ℚ) := by
  rw [← Int.cast_natCast, Int.toNat_of_nonneg (Int.floor_nonneg.mpr hr)]

/-- Monotonicity of the rank-interpolation formula on a sorted sample list. -/
lemma interp_mono {a : List ℚ} (ha : a.Sorted (· ≤ ·)) (h0 : a ≠ [])
    {r s : ℚ} (hr0 : 0 ≤ r) (hrs : r ≤ s) :
    nthSorted a (⌊r⌋.toNat)
        + (r - ((⌊r⌋.toNat : ℕ) : ℚ))
          * (nthSorted a (⌊r⌋.toNat + 1) - nthSorted a (⌊r⌋.toNat))
      ≤ nthSorted a (⌊s⌋.toNat)
        + (s - ((⌊s⌋.toNat : ℕ) : ℚ))
          * (nthSorted a (⌊s⌋.toNat + 1) - nthSorted a (⌊s⌋.toNat)) := by
  have hs0 : 0 ≤ s := le_trans hr0 hrs
  have hij : ⌊r⌋.toNat ≤ ⌊s⌋.toNat := Int.toNat_le_toNat (Int.floor_le_floor hrs)
  have hir : ((⌊r⌋.toNat : ℕ) : ℚ) ≤ r := by
    rw [floor_toNat_cast r hr0]; exact Int.floor_le r
  have hfr1 : r - ((⌊r⌋.toNat : ℕ) : ℚ) < 1 := by
    rw [floor_toNat_cast r hr0]
    have := Int.lt_floor_add_one r
    linarith
  have hjs : ((⌊s⌋.toNat : ℕ) : ℚ) ≤ s := by
    rw [floor_toNat_cast s hs0]; exact Int.floor_le s
  have hdi : nthSorted a (⌊r⌋.toNat) ≤ nthSorted a (⌊r⌋.toNat + 1) :=
    nthSorted_mono ha h0 (Nat.le_succ _)
  have hdj : nthSorted a (⌊s⌋.toNat) ≤ nthSorted a (⌊s⌋.toNat + 1) :=
    nthSorted_mono ha h0 (Nat.le_succ _)
  rcases Nat.lt_or_ge (⌊r⌋.toNat) (⌊s⌋.toNat) with hlt | hge
  · have h1 : (r - ((⌊r⌋.toNat : ℕ) : ℚ))
          * (nthSorted a (⌊r⌋.toNat + 1) - nthSorted a (⌊r⌋.toNat))
        ≤ 1 * (nthSorted a (⌊r⌋.toNat + 1) - nthSorted a (⌊r⌋.toNat)) :=
      mul_le_mul_of_nonneg_right (by linarith) (by linarith)
    have h2 : nthSorted a (⌊r⌋.toNat + 1) ≤ nthSorted a (⌊s⌋.toNat) :=
      nthSorted_mono ha h0 hlt
    have h3 : (0 : ℚ) ≤ (s - ((⌊s⌋.toNat : ℕ) : ℚ))
          * (nthSorted a (⌊s⌋.toNat + 1) - nthSorted a (⌊s⌋.toNat)) :=
      mul_nonneg (by linarith) (by linarith)
    linarith
  · have heq : ⌊s⌋.toNat = ⌊r⌋.toNat := le_antisymm hge hij
    rw [heq]
    have h1 : (r - ((⌊r⌋.toNat : ℕ) : ℚ))
          * (nthSorted a (⌊r⌋.toNat + 1) - nthSorted a (⌊r⌋.toNat))
        ≤ (s - ((⌊r⌋.toNat : ℕ) : ℚ))
          * (nthSorted a (⌊r⌋.toNat + 1) - nthSorted a (⌊r⌋.toNat)) :=
      mul_le_mul_of_nonneg_right (by linarith) (by linarith)
    linarith

lemma percentileOfSorted_mono {a : List ℚ} (ha : a.Sorted (· ≤ ·)) (h0 : a ≠ [])
    {p q : ℚ} (hp0 : 0 ≤ p) (hpq : p ≤ q) :
    percentileOfSorted a p ≤ percentileOfSorted a q := by
  have hlen : 0 < a.length := List.length_pos.mpr h0
  have hn1 : (0 : ℚ) ≤ (a.length : ℚ) - 1 := by
    have : (1 : ℚ) ≤ (a.length : ℚ) := by exact_mod_cast hlen
    linarith
  have hr0 : 0 ≤ p * ((a.length : ℚ) - 1) / 100 :=
    div_nonneg (mul_nonneg hp0 hn1) (by norm_num)
  have hrs : p * ((a.length : ℚ) - 1) / 100 ≤ q * ((a.length : ℚ) - 1) / 100 := by
    have := mul_le_mul_of_nonneg_right hpq hn1
    linarith
  simpa only [percentileOfSorted] using interp_mono ha h0 hr0 hrs

/-- **C9.** For every non-empty set of successful latency samples, the
percentiles computed by sorting and linear interpolation between closest
ranks are monotonically non-decreasing: `p50 ≤ p75 ≤ p95 ≤ p99`. -/
theorem percentiles_monotone (xs : List ℚ) (h : xs ≠ []) :
    npPercentile xs 50 ≤ npPercentile xs 75 ∧
    npPercentile xs 75 ≤ npPercentile xs 95 ∧
    npPercentile xs 95 ≤ npPercentile xs 99 := by
  have hs : (List.insertionSort (· ≤ ·) xs).Sorted (· ≤ ·) :=
    List.sorted_insertionSort (· ≤ ·) xs
  have hne : List.insertionSort (· ≤ ·) xs ≠ [] := by
    intro hcon
    apply h
    have hperm := List.perm_insertionSort (· ≤ ·) xs
    rw [hcon] at hperm
    exact hperm.symm.eq_nil
  unfold npPercentile
  exact ⟨percentileOfSorted_mono hs hne (by norm_num) (by norm_num),
         percentileOfSorted_mono hs hne (by norm_num) (by norm_num),
         percentileOfSorted_mono hs hne (by norm_num) (by norm_num)⟩

/-- Witness for `percentiles_monotone` on the sample list `[2, 1, 3]`. -/
theorem percentiles_monotone_witness :
    ([2, 1, 3] : List ℚ) ≠ [] ∧
    (npPercentile [2, 1, 3] 50 ≤ npPercentile [2, 1, 3] 75 ∧
     npPercentile [2, 1, 3] 75 ≤ npPercentile [2, 1, 3] 95 ∧
     npPercentile [2, 1, 3] 95 ≤ npPercentile [2, 1, 3] 99) :=
  ⟨by simp, percentiles_monotone [2, 1, 3] (by simp)⟩

/-- Witness for `error_rate_formatted_fraction`: one success, one error —
the stored string is `"0.50"` (the fraction), not `"50.00"`. -/
theorem error_rate_formatted_fraction_witness :
    loadRun 1 1 (fun _ => [TransportOutcome.ok 1 200, TransportOutcome.exn])
      = some ⟨1, 1, 1, 1, "0.50", some ("1000.00", "1000.00", "1000.00", "1000.00")⟩ ∧
    ((⟨1, 1, 1, 1, "0.50", some ("1000.00", "1000.00", "1000.00", "1000.00")⟩
          : Metrics).errorRateStr
        = formatF2
            (((⟨1, 1, 1, 1, "0.50", some ("1000.00", "1000.00", "1000.00", "1000.00")⟩
                : Metrics).totalErrors : ℚ)
              / (((⟨1, 1, 1, 1, "0.50", some ("1000.00", "1000.00", "1000.00", "1000.00")⟩
                    : Metrics).successfulRequests : ℚ)
                + ((⟨1, 1, 1, 1, "0.50", some ("1000.00", "1000.00", "1000.00", "1000.00")⟩
                    : Metrics).totalErrors : ℚ))) ∧
     (0 : ℚ) ≤ ((1 : ℕ) : ℚ) / (((1 : ℕ) : ℚ) + ((1 : ℕ) : ℚ)) ∧
     ((1 : ℕ) : ℚ) / (((1 : ℕ) : ℚ) + ((1 : ℕ) : ℚ)) ≤ 1 ∧
     ∀ s50 s75 s95 s99,
       (⟨1, 1, 1, 1, "0.50", some ("1000.00", "1000.00", "1000.00", "1000.00")⟩
           : Metrics).percentiles = some (s50, s75, s95, s99) →
       s50 = formatF2 (npPercentile
          (runResults 1 1 (fun _ => [TransportOutcome.ok 1 200, TransportOutcome.exn])) 50) ∧
       s75 = formatF2 (npPercentile
          (runResults 1 1 (fun _ => [TransportOutcome.ok 1 200, TransportOutcome.exn])) 75) ∧
       s95 = formatF2 (npPercentile
          (runResults 1 1 (fun _ => [TransportOutcome.ok 1 200, TransportOutcome.exn])) 95) ∧
       s99 = formatF2 (npPercentile
          (runResults 1 1 (fun _ => [TransportOutcome.ok 1 200, TransportOutcome.exn])) 99)) :=
  ⟨loadRun_mixed, error_rate_formatted_fraction 1 1 _ _ loadRun_mixed⟩

/-! ### Pacer distribution lemmas -/

lemma integral_x_exp_neg : ∫ x in Set.Ioi (0 : ℝ), x * Real.exp (-x) = 1 := by
  have h2 : Real.Gamma 2 = ∫ x in Set.Ioi (0 : ℝ), Real.exp (-x) * x ^ ((2 : ℝ) - 1) :=
    Real.Gamma_eq_integral (by norm_num)
  have h3 : Real.Gamma 2 = 1 := by
    simp [Real.Gamma_ofNat_eq_factorial 1]
  have hcong : Set.EqOn (fun x : ℝ => Real.exp (-x) * x ^ ((2 : ℝ) - 1))
      (fun x : ℝ => x * Real.exp (-x)) (Set.Ioi 0) := by
    intro x _
    simp only
    rw [show (2 : ℝ) - 1 = 1 by norm_num, Real.rpow_one]
    ring
  rw [MeasureTheory.setIntegral_congr_fun measurableSet_Ioi hcong] at h2
  rw [← h2, h3]

lemma expDist_mean {j : ℝ} (hj : 0 < j) : (DelayDist.expDist j).mean = j := by
  show ∫ x in Set.Ioi (0 : ℝ), x * (j⁻¹ * Real.exp (-(x / j))) = j
  have hinv : 0 < j⁻¹ := inv_pos.mpr hj
  have e1 : ∀ x : ℝ, (j * (j⁻¹ * x)) * (j⁻¹ * Real.exp (-(j⁻¹ * x)))
      = x * (j⁻¹ * Real.exp (-(x / j))) := by
    intro x
    simp only [inv_mul_eq_div]
    rw [mul_comm j (x / j), div_mul_cancel₀ x hj.ne']
  have e2 : ∀ y : ℝ, (j * y) * (j⁻¹ * Real.exp (-y)) = y * Real.exp (-y) := by
    intro y
    field_simp
    ring
  calc ∫ x in Set.Ioi (0 : ℝ), x * (j⁻¹ * Real.exp (-(x / j)))
      = ∫ x in Set.Ioi (0 : ℝ),
          (fun y => (j * y) * (j⁻¹ * Real.exp (-y))) (j⁻¹ * x) := by
        refine MeasureTheory.setIntegral_congr_fun measurableSet_Ioi fun x _ => ?_
        exact (e1 x).symm
    _ = (j⁻¹)⁻¹ • ∫ y in Set.Ioi (j⁻¹ * 0), (j * y) * (j⁻¹ * Real.exp (-y)) :=
        MeasureTheory.integral_comp_mul_left_Ioi
          (fun y => (j * y) * (j⁻¹ * Real.exp (-y))) 0 hinv
    _ = j * ∫ y in Set.Ioi (0 : ℝ), y * Real.exp (-y) := by
        rw [inv_inv, mul_zero, smul_eq_mul]
        congr 1
        exact MeasureTheory.setIntegral_congr_fun measurableSet_Ioi fun y _ => e2 y
    _ = j * 1 := by rw [integral_x_exp_neg]
    _ = j := mul_one j

lemma uniformDist_mean {j : ℝ} (hj : 0 < j) :
    (DelayDist.uniformDist 0 (2 * j)).mean = j := by
  show ∫ x in (0 : ℝ)..(2 * j), x * (2 * j - 0)⁻¹ = j
  rw [intervalIntegral.integral_mul_const, integral_id]
  field_simp
  ring

/-- **C4.** The pacing delay in mode `"uniform"` is a draw from the uniform
distribution over `[0, 2 · avgJitterSeconds]`, whose mean is
`avgJitterSeconds`; in mode `"exponential"` it is a draw from the exponential
distribution with scale (mean) `avgJitterSeconds`; and in both modes every
possible delay is non-negative. -/
theorem pacer_delay_distributions (j : ℝ) (hj : 0 < j) :
    pacerDist "uniform" j = DelayDist.uniformDist 0 (2 * j) ∧
    (pacerDist "uniform" j).mean = j ∧
    (pacerDist "uniform" j).support = Set.Icc 0 (2 * j) ∧
    (∀ x ∈ (pacerDist "uniform" j).support, 0 ≤ x) ∧
    pacerDist "exponential" j = DelayDist.expDist j ∧
    (pacerDist "exponential" j).mean = j ∧
    (pacerDist "exponential" j).support = Set.Ici 0 ∧
    (∀ x ∈ (pacerDist "exponential" j).support, 0 ≤ x) := by
  have hu : pacerDist "uniform" j = DelayDist.uniformDist 0 (2 * j) := by
    unfold pacerDist
    rw [if_pos rfl]
  have he : pacerDist "exponential" j = DelayDist.expDist j := by
    unfold pacerDist
    rw [if_neg (by decide), if_pos rfl]
  refine ⟨hu, ?_, ?_, ?_, he, ?_, ?_, ?_⟩
  · rw [hu]; exact uniformDist_mean hj
  · rw [hu]; rfl
  · rw [hu]; intro x hx; exact hx.1
  · rw [he]; exact expDist_mean hj
  · rw [he]; rfl
  · rw [he]; intro x hx; exact hx

/-- Witness for `pacer_delay_distributions` at `avgJitterSeconds = 1`. -/
theorem pacer_delay_distributions_witness :
    (0 : ℝ) < 1 ∧
    (pacerDist "uniform" 1 = DelayDist.uniformDist 0 (2 * 1) ∧
     (pacerDist "uniform" 1).mean = 1 ∧
     (pacerDist "uniform" 1).support = Set.Icc 0 (2 * 1) ∧
     (∀ x ∈ (pacerDist "uniform" 1).support, 0 ≤ x) ∧
     pacerDist "exponential" 1 = DelayDist.expDist 1 ∧
     (pacerDist "exponential" 1).mean = 1 ∧
     (pacerDist "exponential" 1).support = Set.Ici 0 ∧
     (∀ x ∈ (pacerDist "exponential" 1).support, 0 ≤ x)) :=
  ⟨by norm_num, pacer_delay_distributions 1 (by norm_num)⟩

end HTTPBench
